import Mathlib

/-!
Shallow embedding of the job-lifecycle core of the academic-reader repository.

Embedded modules:
* src/converter/app/process_manager.py  (ProcessManager: shared-dict registry,
  process table, cancellation with graceful-then-forced escalation)
* src/worker/app/jobs.py                (in-process job registry)
* src/worker/app/progress.py            (TrackedTqdm queue transport and
  WebhookTqdm throttled webhook transport)
* src/converter/app/conversion_process.py (subprocess conversion entry point)
* src/converter/app/handler.py          (serverless handler with best-effort
  progress webhook delivery)

Python dictionaries are mutable heap objects; to distinguish the converter
registry (whose get_job returns a copy of the record) from the worker registry
(whose get_job returns the live stored dict), records live in an explicit
address-indexed heap and operations say whether they hand out a fresh copy or
the stored address.
-/

namespace AcademicReader

/-- Job status values, as in the JobStatus literal of process_manager.py and
the Job TypedDict of jobs.py. -/
inductive JobStatus where
  | pending
  | processing
  | htmlReady
  | completed
  | failed
  | cancelled
deriving DecidableEq

/-- Position of a status along the lifecycle lattice
PENDING < PROCESSING < HTML_READY < terminal. -/
def JobStatus.rank : JobStatus → Nat
  | .pending => 0
  | .processing => 1
  | .htmlReady => 2
  | .completed => 3
  | .failed => 3
  | .cancelled => 3

/-- COMPLETED, FAILED and CANCELLED are the terminal statuses. -/
def JobStatus.isTerminal : JobStatus → Bool
  | .completed => true
  | .failed => true
  | .cancelled => true
  | _ => false

/-- One registry write b may follow a without regression: rank does not
decrease, and a terminal status is never replaced by a different value. -/
def statusStep (a b : JobStatus) : Prop :=
  a.rank ≤ b.rank ∧ (a.isTerminal = true → b = a)

instance (a b : JobStatus) : Decidable (statusStep a b) :=
  inferInstanceAs (Decidable (a.rank ≤ b.rank ∧ (a.isTerminal = true → b = a)))

/-- Model of the opaque result payload stored by the completed write
(content, metadata, formats, images). -/
structure ResultPayload where
  content : String
deriving DecidableEq

/-- A job record: the dict stored in the registry.  The three fields written
by create_job are always present; the remaining fields appear once written. -/
structure JobRecord where
  status : JobStatus
  file_id : String
  output_format : String
  html_content : Option String := none
  result : Option ResultPayload := none
  error : Option String := none
deriving DecidableEq

instance : Inhabited JobRecord :=
  ⟨{ status := .pending, file_id := "", output_format := "" }⟩

/-- The keyword arguments of an update_job call: each field is present
(some) or absent from the kwargs (none). -/
structure JobUpdates where
  status : Option JobStatus := none
  file_id : Option String := none
  output_format : Option String := none
  html_content : Option String := none
  result : Option ResultPayload := none
  error : Option String := none
deriving DecidableEq

/-- dict.update: merge the present fields of u into r. -/
def mergeRecord (r : JobRecord) (u : JobUpdates) : JobRecord :=
  { status := u.status.getD r.status
    file_id := u.file_id.getD r.file_id
    output_format := u.output_format.getD r.output_format
    html_content := (u.html_content.map some).getD r.html_content
    result := (u.result.map some).getD r.result
    error := (u.error.map some).getD r.error }

/-- A heap of job-record objects plus the id-to-address binding of a registry
dict.  next is the first never-used address. -/
structure Mem where
  heap : Nat → JobRecord
  next : Nat
  jobs : String → Option Nat

def Mem.empty : Mem :=
  { heap := fun _ => default, next := 0, jobs := fun _ => none }

/-- Read the record object stored at address a. -/
def deref (m : Mem) (a : Nat) : JobRecord :=
  m.heap a

/-- Overwrite the heap cell at address a (mutation of an object in place). -/
def writeHeap (m : Mem) (a : Nat) (r : JobRecord) : Mem :=
  { m with heap := fun b => if b = a then r else m.heap b }

/-- Allocate a fresh object holding r and return its address. -/
def alloc (m : Mem) (r : JobRecord) : Nat × Mem :=
  (m.next,
    { heap := fun b => if b = m.next then r else m.heap b
      next := m.next + 1
      jobs := m.jobs })

/-- Bind id to address a in the registry dict. -/
def bindJob (m : Mem) (id : String) (a : Nat) : Mem :=
  { m with jobs := fun k => if k = id then some a else m.jobs k }

/-- All bound addresses were allocated. -/
def Mem.wf (m : Mem) : Prop :=
  ∀ id a, m.jobs id = some a → a < m.next

end AcademicReader

namespace AcademicReader.WorkerJobs

/-!  src/worker/app/jobs.py — the worker-side in-process registry.
get_job returns the stored dict itself (no copy), so it is modelled as
returning the stored address; update_job mutates that dict in place. -/

open AcademicReader

/-- create_job: bind id to a freshly allocated dict with status pending. -/
def create_job (m : Mem) (id f out : String) : Mem :=
  let p := alloc m { status := .pending, file_id := f, output_format := out }
  bindJob p.2 id p.1

/-- get_job: returns the stored object itself — an address — or none. -/
def get_job (m : Mem) (id : String) : Option Nat :=
  m.jobs id

/-- update_job: if id is bound, mutate the stored dict in place with
dict.update; otherwise do nothing. -/
def update_job (m : Mem) (id : String) (u : JobUpdates) : Mem :=
  match m.jobs id with
  | none => m
  | some a => writeHeap m a (mergeRecord (deref m a) u)

end AcademicReader.WorkerJobs

namespace AcademicReader.PM

/-!  src/converter/app/process_manager.py — ProcessManager.

The job dict is a multiprocessing Manager dict: reading a key hands back a
copy of the stored record, and updates reassign the key to a new object.
get_job additionally copies with dict(job).  So get_job is modelled as
returning the record value (a detached copy, allocated at a fresh address so
that mutating the copy is expressible), and update_job as binding the id to a
freshly allocated merged record. -/

open AcademicReader

/-- Observable behaviour of a worker process under cancellation:
whether is_alive() holds when cancel_job first checks, and whether it still
holds after terminate() plus join(timeout=2.0). -/
structure ProcBehavior where
  aliveAtStart : Bool
  aliveAfterTerm : Bool
deriving DecidableEq

/-- State of a ProcessManager: the shared jobs dict, the tracked process per
job id, and which job ids currently have a progress queue. -/
structure PMState where
  mem : Mem
  processes : String → Option ProcBehavior
  queues : String → Bool

/-- The externally visible steps cancel_job takes, in order. -/
inductive ProcAction where
  | checkAlive (result : Bool)
  | terminate
  | joinMs (ms : Nat)
  | kill
  | writeStatus (st : JobStatus)
  | release
deriving DecidableEq

/-- create_job: assign a fresh pending record to id in the shared dict
(unconditionally; any previous record is replaced). -/
def create_job (s : PMState) (id f out : String) : PMState :=
  let p := alloc s.mem { status := .pending, file_id := f, output_format := out }
  { s with mem := bindJob p.2 id p.1 }

/-- get_job: dict(job) if job else None — a detached copy of the record,
allocated fresh so that mutation of the copy can be talked about. -/
def get_job (s : PMState) (id : String) : Option Nat × PMState :=
  match s.mem.jobs id with
  | none => (none, s)
  | some a =>
    let p := alloc s.mem (deref s.mem a)
    (some p.1, { s with mem := p.2 })

/-- update_job: copy the stored record, merge the updates, and reassign the
key to the merged copy; no-op when id is absent. -/
def update_job (s : PMState) (id : String) (u : JobUpdates) : PMState :=
  match s.mem.jobs id with
  | none => s
  | some a =>
    let p := alloc s.mem (mergeRecord (deref s.mem a) u)
    { s with mem := bindJob p.2 id p.1 }

/-- The registry write cancel_job performs after the process is gone:
set status cancelled if the id is still in the jobs dict. -/
def writeCancelled (s : PMState) (id : String) : PMState :=
  update_job s id { status := some .cancelled }

/-- ProcessManager._cleanup_job: drop the process handle and the queue. -/
def cleanup_job (s : PMState) (id : String) : PMState :=
  { s with
    processes := fun k => if k = id then none else s.processes k
    queues := fun k => if k = id then false else s.queues k }

/-- ProcessManager.cancel_job, returning the result, the new state and the
trace of process-level actions taken. -/
def cancel_job (s : PMState) (id : String) : Bool × PMState × List ProcAction :=
  match s.processes id with
  | none => (false, s, [])
  | some p =>
    if p.aliveAtStart = false then
      (false, s, [ProcAction.checkAlive false])
    else
      let escal :=
        [ProcAction.checkAlive true, ProcAction.terminate, ProcAction.joinMs 2000] ++
          (if p.aliveAfterTerm then
            [ProcAction.checkAlive true, ProcAction.kill, ProcAction.joinMs 1000]
          else
            [ProcAction.checkAlive false])
      (true, cleanup_job (writeCancelled s id) id,
        escal ++ [ProcAction.writeStatus .cancelled, ProcAction.release])

end AcademicReader.PM

namespace AcademicReader.Progress

/-!  src/worker/app/progress.py — progress tracking via event queue or
webhook.

TrackedTqdm (installed by install_tqdm_patch) captures the module-level
active job at construction and pushes ProgressEvent values into that job's
queue.  WebhookTqdm (installed by install_webhook_tqdm_patch) sends events
through the webhook callback, throttled inside update.  Queues are modelled
as lists ordered oldest first; put appends. -/

open AcademicReader

/-- ProgressEvent as pushed to a queue (started_at omitted: no claim touches
it and it is constant per instance). -/
structure ProgressEvent where
  stage : String
  current : Int
  total : Int
deriving DecidableEq

/-- Module-level state of progress.py: the per-job queues and the active
job id set by set_active_job. -/
structure ProgState where
  queues : String → List ProgressEvent
  activeJob : Option String

/-- get_queue(job_id).put(e): appending creates the queue on first use. -/
def pushEvent (g : ProgState) (id : String) (e : ProgressEvent) : ProgState :=
  { g with queues := fun k => if k = id then g.queues k ++ [e] else g.queues k }

/-- set_active_job. -/
def set_active_job (g : ProgState) (j : Option String) : ProgState :=
  { g with activeJob := j }

/-- Per-instance state of a TrackedTqdm progress bar. -/
structure TrackedState where
  tracked : Bool
  jobId : String
  n : Int
  total : Int
  stage : String
deriving DecidableEq

/-- TrackedTqdm.__init__: capture the active job; when a (truthy) job id is
set and total is truthy and positive, mark tracked and push (0, total). -/
def trackedInit (g : ProgState) (total : Option Int) (stage : String) :
    ProgState × TrackedState :=
  let tv := total.getD 0
  match g.activeJob with
  | some j =>
    if j ≠ "" ∧ 0 < tv then
      (pushEvent g j ⟨stage, 0, tv⟩,
        { tracked := true, jobId := j, n := 0, total := tv, stage := stage })
    else
      (g, { tracked := false, jobId := "", n := 0, total := tv, stage := stage })
  | none =>
    (g, { tracked := false, jobId := "", n := 0, total := tv, stage := stage })

/-- TrackedTqdm.update(n): increment the counter, then push the new
(self.n, total) when tracked. -/
def trackedUpdate (g : ProgState) (st : TrackedState) (k : Int) :
    ProgState × TrackedState :=
  let st1 := { st with n := st.n + k }
  if st.tracked then
    (pushEvent g st.jobId ⟨st.stage, st1.n, st.total⟩, st1)
  else
    (g, st1)

/-- TrackedTqdm.close: push the terminal (total, total) when tracked. -/
def trackedClose (g : ProgState) (st : TrackedState) : ProgState :=
  if st.tracked then pushEvent g st.jobId ⟨st.stage, st.total, st.total⟩ else g

/-- What can happen to one TrackedTqdm instance between construction and
close: its own update calls, interleaved with set_active_job calls. -/
inductive TrackedOp where
  | update (k : Int)
  | setActive (j : Option String)

/-- Run a list of operations against the module state and one instance. -/
def trackedSteps (g : ProgState) (st : TrackedState) :
    List TrackedOp → ProgState × TrackedState
  | [] => (g, st)
  | TrackedOp.update k :: rest =>
    let p := trackedUpdate g st k
    trackedSteps p.1 p.2 rest
  | TrackedOp.setActive j :: rest =>
    trackedSteps (set_active_job g j) st rest

/-- Run the update calls of one stage (no interleaved set_active_job). -/
def runUpdatesT (g : ProgState) (st : TrackedState) :
    List Int → ProgState × TrackedState
  | [] => (g, st)
  | k :: ks =>
    let p := trackedUpdate g st k
    runUpdatesT p.1 p.2 ks

/-- One full stage in shared-channel mode: construct the bar while aj is the
active job, run the updates, close the bar. -/
def runTrackedStage (aj : Option String) (total : Option Int) (stage : String)
    (ks : List Int) : ProgState :=
  let g0 : ProgState := { queues := fun _ => [], activeJob := aj }
  let p := trackedInit g0 total stage
  let q := runUpdatesT p.1 p.2 ks
  trackedClose q.1 q.2

/-- The events the stage pushed to the active job's queue. -/
def stageEvents (aj : Option String) (total : Option Int) (stage : String)
    (ks : List Int) : List ProgressEvent :=
  (runTrackedStage aj total stage ks).queues (aj.getD "")

/-- One webhook send: the arguments the callback received, the time of the
call, and whether it came from the throttled update path (as opposed to the
unconditional sends in __init__ and close). -/
structure SendRec where
  stage : String
  current : Int
  total : Int
  time : ℚ
  fromUpdate : Bool
deriving DecidableEq

/-- Per-instance state of a WebhookTqdm bar.  _last_sent starts at 0 and is
only assigned in update. -/
structure WebhookState where
  tracked : Bool
  n : Int
  total : Int
  lastSent : ℚ
  stage : String
deriving DecidableEq

/-- WebhookTqdm.__init__ at wall-clock time t: when a callback is set and
total is truthy and positive, mark tracked and send (0, total) at once. -/
def webhookInit (hasCb : Bool) (total : Option Int) (stage : String) (t : ℚ) :
    WebhookState × List SendRec :=
  let tv := total.getD 0
  if hasCb ∧ 0 < tv then
    ({ tracked := true, n := 0, total := tv, lastSent := 0, stage := stage },
      [⟨stage, 0, tv, t, false⟩])
  else
    ({ tracked := false, n := 0, total := tv, lastSent := 0, stage := stage }, [])

/-- WebhookTqdm.update(n) at wall-clock time now: increment, then send when
at least 500 ms passed since the last update-send or the counter reached the
total; sending records now in _last_sent. -/
def webhookUpdate (st : WebhookState) (k : Int) (now : ℚ) :
    WebhookState × List SendRec :=
  let n1 := st.n + k
  if st.tracked then
    if 1/2 ≤ now - st.lastSent ∨ st.total ≤ n1 then
      ({ st with n := n1, lastSent := now }, [⟨st.stage, n1, st.total, now, true⟩])
    else
      ({ st with n := n1 }, [])
  else
    ({ st with n := n1 }, [])

/-- WebhookTqdm.close at wall-clock time t: always send (total, total) when
tracked; _last_sent is not consulted or updated. -/
def webhookClose (st : WebhookState) (t : ℚ) : List SendRec :=
  if st.tracked then [⟨st.stage, st.total, st.total, t, false⟩] else []

/-- Fold the update calls of a stage, collecting the sends in order. -/
def runWebhookUpdates (st : WebhookState) :
    List (Int × ℚ) → WebhookState × List SendRec
  | [] => (st, [])
  | (k, now) :: rest =>
    let p := webhookUpdate st k now
    let q := runWebhookUpdates p.1 rest
    (q.1, p.2 ++ q.2)

/-- One full stage in webhook mode: construct at tInit, run the timed
updates, close at tClose; the result is every send in order. -/
def runWebhookStage (hasCb : Bool) (total : Option Int) (stage : String)
    (tInit : ℚ) (updates : List (Int × ℚ)) (tClose : ℚ) : List SendRec :=
  let p := webhookInit hasCb total stage tInit
  let q := runWebhookUpdates p.1 updates
  p.2 ++ q.2 ++ webhookClose q.1 tClose

end AcademicReader.Progress

namespace AcademicReader

/-- A Python exception escaping the conversion body, at the granularity the
handlers in conversion_process.py distinguish. -/
inductive PyExc where
  | fileNotFound
  | valueError (msg : String)
  | otherExc (msg : String)
deriving DecidableEq

/-- str(e) for the message interpolations. -/
def PyExc.msg : PyExc → String
  | .fileNotFound => "FileNotFoundError"
  | .valueError m => m
  | .otherExc m => m

end AcademicReader

namespace AcademicReader.ConversionProcess

/-!  src/converter/app/conversion_process.py — run_conversion_process, the
subprocess entry point.  The conversion body is external
(_build_and_render_all, _process_html); its behaviour is an input: either it
returns the rendered formats, or it raises before the html_ready write, or a
later step raises after the html_ready write. -/

open AcademicReader

/-- _update_shared_job on the Manager dict: copy the stored record, merge
the updates, reassign the key; no-op when the id is absent. -/
def update_shared_job (m : Mem) (id : String) (u : JobUpdates) : Mem :=
  match m.jobs id with
  | none => m
  | some a =>
    let p := alloc m (mergeRecord (deref m a) u)
    bindJob p.2 id p.1

/-- Behaviour of the external conversion body inside one run. -/
inductive ConvOutcome where
  | ok (html : String) (payload : ResultPayload)
  | raisedBeforePreview (e : PyExc)
  | raisedAfterPreview (html : String) (e : PyExc)
deriving DecidableEq

/-- The error string each except clause stores. -/
def errorMessage : PyExc → String
  | .fileNotFound => "File not found"
  | .valueError m => "Invalid input: " ++ m
  | .otherExc m => "Conversion failed: " ++ m

/-- The observable effects of one run_conversion_process call: the final
shared dict, the update_shared_job calls in order, and whether the finally
block's input-file removal step ran. -/
structure ConvRun where
  mem : Mem
  writes : List JobUpdates
  cleanupRan : Bool

/-- run_conversion_process: write processing; run the conversion; on success
write html_ready with the preview then completed with the result; on an
exception write failed with the matching message; in all cases run the
finally block that removes the input file. -/
def run_conversion_process (m : Mem) (id : String) (o : ConvOutcome) : ConvRun :=
  let w1 : JobUpdates := { status := some .processing }
  let m1 := update_shared_job m id w1
  match o with
  | .ok html payload =>
    let w2 : JobUpdates := { status := some .htmlReady, html_content := some html }
    let m2 := update_shared_job m1 id w2
    let w3 : JobUpdates := { status := some .completed, result := some payload }
    { mem := update_shared_job m2 id w3, writes := [w1, w2, w3], cleanupRan := true }
  | .raisedBeforePreview e =>
    let w2 : JobUpdates := { status := some .failed, error := some (errorMessage e) }
    { mem := update_shared_job m1 id w2, writes := [w1, w2], cleanupRan := true }
  | .raisedAfterPreview html e =>
    let w2 : JobUpdates := { status := some .htmlReady, html_content := some html }
    let m2 := update_shared_job m1 id w2
    let w3 : JobUpdates := { status := some .failed, error := some (errorMessage e) }
    { mem := update_shared_job m2 id w3, writes := [w1, w2, w3], cleanupRan := true }

end AcademicReader.ConversionProcess

namespace AcademicReader.Handler

/-!  src/converter/app/handler.py — the Runpod serverless handler.
send_progress posts the progress payload and swallows every exception the
post raises; the handler result is built from the validation, download and
conversion outcomes. -/

open AcademicReader

/-- The dict the handler returns. -/
inductive HandlerOut where
  | errorOut (msg : String)
  | okOut (r : ResultPayload)
deriving DecidableEq

/-- Submission-time input fields the handler reads. -/
structure HandlerInput where
  file_url : Option String
  output_format : String
  progress_webhook_url : Option String

/-- Outcome of the file download. -/
inductive DownloadResult where
  | okBytes
  | httpError (msg : String)

/-- The raw outbound POST of one progress update: the network may raise. -/
def post_progress (fails : Bool) : Except PyExc Unit :=
  if fails then Except.error (PyExc.otherExc "connect error") else Except.ok ()

/-- send_progress: try the POST, and on any exception do nothing — progress
webhook errors never propagate. -/
def send_progress (fails : Bool) : Except PyExc Unit :=
  match post_progress fails with
  | Except.ok _ => Except.ok ()
  | Except.error _ => Except.ok ()

/-- The progress callbacks fired during a conversion, threaded through the
exception monad: a callback that raised would abort the conversion. -/
def runTicks (postFail : Nat → Bool) : Nat → Except PyExc Unit
  | 0 => Except.ok ()
  | n + 1 =>
    match send_progress (postFail n) with
    | Except.error e => Except.error e
    | Except.ok _ => runTicks postFail n

/-- run_conversion_sync with the webhook patch installed: fire the progress
callbacks, then produce the conversion outcome. -/
def run_conversion_sync (postFail : Nat → Bool) (ticks : Nat)
    (outcome : Except PyExc ResultPayload) : Except PyExc ResultPayload :=
  match runTicks postFail ticks with
  | Except.error e => Except.error e
  | Except.ok _ => outcome

/-- handler: validate file_url, download, convert with progress callbacks
(active only when a progress_webhook_url was supplied), and shape the
response. -/
def handler (inp : HandlerInput) (dl : DownloadResult) (postFail : Nat → Bool)
    (ticks : Nat) (conv : Except PyExc ResultPayload) : HandlerOut :=
  match inp.file_url with
  | none => HandlerOut.errorOut "Missing required field: file_url"
  | some _ =>
    match dl with
    | DownloadResult.httpError m =>
      HandlerOut.errorOut ("Failed to download file: " ++ m)
    | DownloadResult.okBytes =>
      let pf := if inp.progress_webhook_url.isSome then postFail else fun _ => false
      match run_conversion_sync pf ticks conv with
      | Except.ok r => HandlerOut.okOut r
      | Except.error e => HandlerOut.errorOut ("Conversion failed: " ++ e.msg)

end AcademicReader.Handler

namespace AcademicReader.PM

open AcademicReader

/-- The record currently stored for id, read out of the shared dict. -/
def recordOf (s : PMState) (id : String) : Option JobRecord :=
  (s.mem.jobs id).map (deref s.mem)

/-- The status currently stored for id. -/
def statusOf (s : PMState) (id : String) : Option JobStatus :=
  (recordOf s id).map JobRecord.status

end AcademicReader.PM

namespace AcademicReader.WorkerJobs

open AcademicReader

/-- The record currently stored for id in the worker registry. -/
def recordOf (m : Mem) (id : String) : Option JobRecord :=
  (m.jobs id).map (deref m)

end AcademicReader.WorkerJobs

namespace AcademicReader

open AcademicReader.ConversionProcess AcademicReader.Handler

/-- An empty ProcessManager. -/
def pmEmpty : PM.PMState :=
  { mem := Mem.empty, processes := fun _ => none, queues := fun _ => false }

/-- A ProcessManager holding one freshly created job "j". -/
def pmOneJob : PM.PMState :=
  PM.create_job pmEmpty "j" "f" "html"

/-- Claim C10: create_job unconditionally replaces whatever record is stored
under the given id with a fresh PENDING record — in both the ProcessManager
registry and the worker registry — even when the previous record is in a
terminal status. -/
theorem C10_create_job_overwrites (s : PM.PMState) (m : Mem) (id f out : String) :
    PM.recordOf (PM.create_job s id f out) id =
      some { status := JobStatus.pending, file_id := f, output_format := out } ∧
    WorkerJobs.recordOf (WorkerJobs.create_job m id f out) id =
      some { status := JobStatus.pending, file_id := f, output_format := out } := by
  constructor
  · simp [PM.recordOf, PM.create_job, bindJob, alloc, deref]
  · simp [WorkerJobs.recordOf, WorkerJobs.create_job, bindJob, alloc, deref]

/-- send_progress never raises, whatever the POST does. -/
theorem send_progress_ok (fails : Bool) : Handler.send_progress fails = Except.ok () := by
  cases fails <;> rfl

theorem runTicks_ok (postFail : Nat → Bool) : ∀ n, runTicks postFail n = Except.ok () := by
  intro n
  induction n with
  | zero => rfl
  | succ k ih => rw [runTicks, send_progress_ok]; exact ih

/-- Claim C8: a failure while delivering a progress webhook never fails the
job — the handler result is the same function of the input, download outcome
and conversion outcome no matter which progress POSTs raise, because
send_progress catches and discards every exception of the POST. -/
theorem C8_webhook_failure_never_fails_job (inp : Handler.HandlerInput)
    (dl : Handler.DownloadResult) (ticks : Nat) (conv : Except PyExc ResultPayload)
    (postFail1 postFail2 : Nat → Bool) :
    Handler.handler inp dl postFail1 ticks conv =
      Handler.handler inp dl postFail2 ticks conv := by
  unfold Handler.handler Handler.run_conversion_sync
  simp [runTicks_ok]

/-- Claim C7: run_conversion_process performs exactly one terminal status
write per run — COMPLETED carrying a result on success, FAILED carrying an
error message on every caught exception — and the input-file removal step of
the finally block runs on the success path and on every failure path. -/
theorem C7_one_terminal_write_and_cleanup (m : Mem) (id : String) (o : ConvOutcome) :
    ((run_conversion_process m id o).writes.filterMap JobUpdates.status).countP
        (fun st => st.isTerminal) = 1 ∧
    (∃ u, (run_conversion_process m id o).writes.getLast? = some u ∧
      ((u.status = some JobStatus.completed ∧ u.result.isSome = true) ∨
        (u.status = some JobStatus.failed ∧ u.error.isSome = true))) ∧
    (run_conversion_process m id o).cleanupRan = true := by
  cases o with
  | ok html payload =>
    exact ⟨rfl, ⟨_, rfl, Or.inl ⟨rfl, rfl⟩⟩, rfl⟩
  | raisedBeforePreview e =>
    exact ⟨rfl, ⟨_, rfl, Or.inr ⟨rfl, rfl⟩⟩, rfl⟩
  | raisedAfterPreview html e =>
    exact ⟨rfl, ⟨_, rfl, Or.inr ⟨rfl, rfl⟩⟩, rfl⟩

end AcademicReader

namespace AcademicReader

open AcademicReader.ConversionProcess

/-- Setting a status through PM.update_job stores it. -/
theorem PM_update_job_statusOf (s : PM.PMState) (id : String) (u : JobUpdates)
    (a : Nat) (st : JobStatus) (h : s.mem.jobs id = some a)
    (hu : u.status = some st) :
    PM.statusOf (PM.update_job s id u) id = some st := by
  unfold PM.update_job
  rw [h]
  simp [PM.statusOf, PM.recordOf, bindJob, alloc, deref, mergeRecord, hu]

/-- The job "j" of pmOneJob set to completed through update_job. -/
def pmCompleted : PM.PMState :=
  PM.update_job pmOneJob "j" { status := some JobStatus.completed }

/-- pmCompleted after a further update_job carrying status pending. -/
def pmRegressed : PM.PMState :=
  PM.update_job pmCompleted "j" { status := some JobStatus.pending }

/-- Claim C1 counterexample: update_job merges whatever fields it is given
with no monotonicity check, so a registry operation moves job "j" from the
terminal status COMPLETED back to PENDING — a regression out of a terminal
state, contradicting the claim at this concrete input. -/
theorem C1_counterexample :
    PM.statusOf pmCompleted "j" = some JobStatus.completed ∧
    JobStatus.completed.isTerminal = true ∧
    PM.statusOf pmRegressed "j" = some JobStatus.pending ∧
    ¬ statusStep JobStatus.completed JobStatus.pending := by
  decide

/-- Claim C1 (amended): the registry operations themselves enforce no
ordering — update_job can overwrite even a terminal status (see the
counterexample).  What the code does guarantee: the statuses the conversion
subprocess writes, appended to the initial PENDING, never regress along
PENDING < PROCESSING < HTML_READY < terminal and never leave a terminal
state; and a cancel_job call that returns false leaves the ProcessManager
state (hence every job status) unchanged. -/
theorem C1_status_monotonicity_amended (m : Mem) (id : String) (o : ConvOutcome)
    (s : PM.PMState) (id2 : String) :
    List.Chain' statusStep
      (JobStatus.pending ::
        (run_conversion_process m id o).writes.filterMap JobUpdates.status) ∧
    ((PM.cancel_job s id2).1 = false → (PM.cancel_job s id2).2.1 = s) := by
  constructor
  · cases o with
    | ok html payload =>
      exact List.chain'_cons.mpr ⟨by decide, List.chain'_cons.mpr ⟨by decide,
        List.chain'_cons.mpr ⟨by decide, List.chain'_singleton _⟩⟩⟩
    | raisedBeforePreview e =>
      exact List.chain'_cons.mpr ⟨by decide, List.chain'_cons.mpr ⟨by decide,
        List.chain'_singleton _⟩⟩
    | raisedAfterPreview html e =>
      exact List.chain'_cons.mpr ⟨by decide, List.chain'_cons.mpr ⟨by decide,
        List.chain'_cons.mpr ⟨by decide, List.chain'_singleton _⟩⟩⟩
  · intro hf
    unfold PM.cancel_job at hf ⊢
    cases hp : s.processes id2 with
    | none => rfl
    | some p =>
      rw [hp] at hf
      dsimp only at hf ⊢
      by_cases ha : p.aliveAtStart = false
      · rw [if_pos ha]
      · rw [if_neg ha] at hf
        exact Bool.noConfusion hf

/-- Claim C1 witness: the amended theorem applied to the failure path of a
concrete run and to a cancel_job call on a manager tracking no process. -/
theorem C1_witness :
    List.Chain' statusStep
      (JobStatus.pending ::
        (run_conversion_process Mem.empty "j"
            (ConvOutcome.raisedBeforePreview PyExc.fileNotFound)).writes.filterMap
          JobUpdates.status) ∧
    (PM.cancel_job pmEmpty "j").2.1 = pmEmpty := by
  have h := C1_status_monotonicity_amended Mem.empty "j"
    (ConvOutcome.raisedBeforePreview PyExc.fileNotFound) pmEmpty "j"
  exact ⟨h.1, h.2 (by decide)⟩

end AcademicReader

namespace AcademicReader

/-- pmOneJob with a tracked process for "j" that dies within the 2s grace
period after terminate(). -/
def pmLiveGraceful : PM.PMState :=
  { pmOneJob with
    processes := fun k => if k = "j" then some { aliveAtStart := true, aliveAfterTerm := false } else none }

/-- pmOneJob with a tracked process for "j" that survives terminate() and
the 2s grace period, forcing the SIGKILL path. -/
def pmLiveStubborn : PM.PMState :=
  { pmOneJob with
    processes := fun k => if k = "j" then some { aliveAtStart := true, aliveAfterTerm := true } else none }

/-- Claim C2: cancel_job returns false — with the whole manager state, hence
the job's status, untouched — whenever no process is tracked for the id or
the tracked process is no longer alive; when the tracked process is alive it
performs terminate, join(2s), then kill and join(1s) only if still alive,
returns true, and leaves the job's stored status CANCELLED whenever a record
exists for the id. -/
theorem C2_cancel_job_contract (s : PM.PMState) (id : String) :
    ((s.processes id = none ∨
        ∃ p, s.processes id = some p ∧ p.aliveAtStart = false) →
      (PM.cancel_job s id).1 = false ∧ (PM.cancel_job s id).2.1 = s) ∧
    (∀ p, s.processes id = some p → p.aliveAtStart = true →
      (PM.cancel_job s id).1 = true ∧
      (PM.cancel_job s id).2.2 =
        [PM.ProcAction.checkAlive true, PM.ProcAction.terminate, PM.ProcAction.joinMs 2000] ++
          (if p.aliveAfterTerm then
            [PM.ProcAction.checkAlive true, PM.ProcAction.kill, PM.ProcAction.joinMs 1000]
          else [PM.ProcAction.checkAlive false]) ++
          [PM.ProcAction.writeStatus JobStatus.cancelled, PM.ProcAction.release] ∧
      (∀ a, s.mem.jobs id = some a →
        PM.statusOf (PM.cancel_job s id).2.1 id = some JobStatus.cancelled)) := by
  constructor
  · rintro (hp | ⟨p, hp, ha⟩)
    · unfold PM.cancel_job
      rw [hp]
      exact ⟨rfl, rfl⟩
    · unfold PM.cancel_job
      rw [hp]
      dsimp only
      rw [if_pos ha]
      exact ⟨rfl, rfl⟩
  · intro p hp ha
    unfold PM.cancel_job
    rw [hp]
    dsimp only
    rw [if_neg (by simp [ha])]
    refine ⟨rfl, rfl, ?_⟩
    intro a hja
    have hcq : ∀ t : PM.PMState, PM.statusOf (PM.cleanup_job t id) id = PM.statusOf t id := by
      intro t; rfl
    dsimp only
    rw [hcq]
    exact PM_update_job_statusOf _ _ _ a JobStatus.cancelled hja rfl

/-- Claim C2 witness: the contract applied to a manager with no tracked
process and to one whose tracked process for job "j" is alive. -/
theorem C2_witness :
    ((PM.cancel_job pmOneJob "j").1 = false ∧ (PM.cancel_job pmOneJob "j").2.1 = pmOneJob) ∧
    (PM.cancel_job pmLiveGraceful "j").1 = true ∧
    PM.statusOf (PM.cancel_job pmLiveGraceful "j").2.1 "j" = some JobStatus.cancelled := by
  have h1 := (C2_cancel_job_contract pmOneJob "j").1 (Or.inl (by decide))
  have h2 := (C2_cancel_job_contract pmLiveGraceful "j").2
    { aliveAtStart := true, aliveAfterTerm := false } (by decide) rfl
  exact ⟨h1, h2.1, h2.2.2 0 (by decide)⟩

/-- Claim C3 counterexample: when the process survives the grace period,
cancel_job kills it, waits at most one second, and then writes CANCELLED and
releases the handle without ever observing the process not alive — the full
action trace contains the status write but no not-alive observation, so the
write is not preceded by a confirmation of death. -/
theorem C3_counterexample :
    PM.ProcAction.writeStatus JobStatus.cancelled ∈ (PM.cancel_job pmLiveStubborn "j").2.2 ∧
    PM.ProcAction.release ∈ (PM.cancel_job pmLiveStubborn "j").2.2 ∧
    PM.ProcAction.checkAlive false ∉ (PM.cancel_job pmLiveStubborn "j").2.2 := by
  decide

/-- Claim C3 (amended): the CANCELLED write and the handle release come last
in every cancellation, after the whole escalation: on the graceful path they
follow an observation that the process is no longer alive, but on the forced
path they follow the kill and the bounded 1s join with no further aliveness
check — death is assumed there, not observed. -/
theorem C3_write_after_escalation_amended (s : PM.PMState) (id : String)
    (p : PM.ProcBehavior) (hp : s.processes id = some p)
    (ha : p.aliveAtStart = true) :
    ∃ pre,
      (PM.cancel_job s id).2.2 =
        pre ++ [PM.ProcAction.writeStatus JobStatus.cancelled, PM.ProcAction.release] ∧
      PM.ProcAction.terminate ∈ pre ∧
      PM.ProcAction.joinMs 2000 ∈ pre ∧
      (PM.ProcAction.checkAlive false ∈ pre ∨
        (PM.ProcAction.kill ∈ pre ∧ PM.ProcAction.joinMs 1000 ∈ pre)) := by
  unfold PM.cancel_job
  rw [hp]
  dsimp only
  rw [if_neg (by simp [ha])]
  cases hb : p.aliveAfterTerm with
  | true =>
    refine ⟨[PM.ProcAction.checkAlive true, PM.ProcAction.terminate, PM.ProcAction.joinMs 2000,
      PM.ProcAction.checkAlive true, PM.ProcAction.kill, PM.ProcAction.joinMs 1000], ?_, ?_, ?_, ?_⟩
    · rfl
    · decide
    · decide
    · exact Or.inr ⟨by decide, by decide⟩
  | false =>
    refine ⟨[PM.ProcAction.checkAlive true, PM.ProcAction.terminate, PM.ProcAction.joinMs 2000,
      PM.ProcAction.checkAlive false], ?_, ?_, ?_, ?_⟩
    · rfl
    · decide
    · decide
    · exact Or.inl (by decide)

/-- Claim C3 witness: the amended theorem applied to the stubborn process of
the counterexample state. -/
theorem C3_witness :
    ∃ pre,
      (PM.cancel_job pmLiveStubborn "j").2.2 =
        pre ++ [PM.ProcAction.writeStatus JobStatus.cancelled, PM.ProcAction.release] ∧
      PM.ProcAction.terminate ∈ pre ∧
      PM.ProcAction.joinMs 2000 ∈ pre ∧
      (PM.ProcAction.checkAlive false ∈ pre ∨
        (PM.ProcAction.kill ∈ pre ∧ PM.ProcAction.joinMs 1000 ∈ pre)) :=
  C3_write_after_escalation_amended pmLiveStubborn "j"
    { aliveAtStart := true, aliveAfterTerm := true } (by decide) rfl

end AcademicReader

namespace AcademicReader

/-- The worker registry holding one freshly created job "j". -/
def wmOneJob : Mem :=
  WorkerJobs.create_job Mem.empty "j" "f" "html"

/-- Claim C4 counterexample: the worker-side get_job returns the stored dict
itself, not a snapshot — here the address 0 of job "j" — and a later
update_job call mutates that very object in place, so the value previously
returned through get_job changes, contradicting the claim at this concrete
input. -/
theorem C4_counterexample :
    WorkerJobs.get_job wmOneJob "j" = some 0 ∧
    deref wmOneJob 0 =
      { status := JobStatus.pending, file_id := "f", output_format := "html" } ∧
    deref (WorkerJobs.update_job wmOneJob "j" { status := some JobStatus.processing }) 0 ≠
      deref wmOneJob 0 := by
  decide

/-- Claim C4 (amended): ProcessManager.get_job returns None exactly when no
record exists, and otherwise a detached copy of the stored record: the copy
equals the record at the time of the call, a later update_job leaves the
returned copy unchanged, and mutating the copy leaves the stored record
unchanged.  The worker-side get_job, by contrast, returns the stored dict
itself, which a later update_job mutates in place (see the counterexample). -/
theorem C4_get_job_snapshot_amended (s : PM.PMState) (hwf : s.mem.wf) (id : String) :
    ((PM.get_job s id).1 = none ↔ s.mem.jobs id = none) ∧
    (∀ b s1, PM.get_job s id = (some b, s1) →
      (∀ a, s.mem.jobs id = some a → deref s1.mem b = deref s.mem a) ∧
      (∀ u, deref (PM.update_job s1 id u).mem b = deref s1.mem b) ∧
      (∀ r a, s1.mem.jobs id = some a →
        deref (writeHeap s1.mem b r) a = deref s1.mem a)) := by
  cases h : s.mem.jobs id with
  | none =>
    refine ⟨?_, ?_⟩
    · unfold PM.get_job
      rw [h]
    · intro b s1 hbs
      unfold PM.get_job at hbs
      rw [h] at hbs
      exact absurd (congrArg Prod.fst hbs) (by simp)
  | some a0 =>
    refine ⟨?_, ?_⟩
    · unfold PM.get_job
      rw [h]
      simp
    · intro b s1 hbs
      unfold PM.get_job at hbs
      rw [h] at hbs
      dsimp only at hbs
      have hb : b = s.mem.next := by
        have hfst := congrArg Prod.fst hbs
        exact (Option.some.inj hfst).symm
      have hs1 : s1 = { s with mem := (alloc s.mem (deref s.mem a0)).2 } :=
        (congrArg Prod.snd hbs).symm
      subst hb
      subst hs1
      have hja : ({ s with mem := (alloc s.mem (deref s.mem a0)).2 } : PM.PMState).mem.jobs id
          = some a0 := h
      refine ⟨?_, ?_, ?_⟩
      · intro a ha
        have haa : a0 = a := Option.some.inj ha
        subst haa
        simp [deref, alloc]
      · intro u
        unfold PM.update_job
        rw [hja]
        dsimp only
        simp only [deref, alloc, bindJob]
        rw [if_neg (by omega)]
      · intro r a ha
        have haa : a0 = a := Option.some.inj (hja.symm.trans ha)
        subst haa
        have hlt : a0 < s.mem.next := hwf id a0 h
        simp only [deref, writeHeap]
        rw [if_neg (by omega)]

/-- Claim C4 witness: the amended theorem applied to the manager holding job
"j": the copy handed out for "j" lives at address 1, equals the stored
record, and survives a subsequent update_job unchanged. -/
theorem C4_witness :
    deref (PM.get_job pmOneJob "j").2.mem 1 = deref pmOneJob.mem 0 ∧
    deref (PM.update_job (PM.get_job pmOneJob "j").2 "j"
        { status := some JobStatus.completed }).mem 1 =
      deref (PM.get_job pmOneJob "j").2.mem 1 := by
  have hwf : pmOneJob.mem.wf := by
    have hnext : pmOneJob.mem.next = 1 := by decide
    intro k a h
    by_cases hk : k = "j"
    · subst hk
      have h0 : pmOneJob.mem.jobs "j" = some 0 := by decide
      rw [h0] at h
      have ha := Option.some.inj h
      rw [hnext]
      omega
    · simp [pmOneJob, PM.create_job, bindJob, alloc, pmEmpty, Mem.empty, hk] at h
  have hfst : (PM.get_job pmOneJob "j").1 = some 1 := by decide
  have hpair : PM.get_job pmOneJob "j" = (some 1, (PM.get_job pmOneJob "j").2) := by
    rw [← hfst]
  have h := (C4_get_job_snapshot_amended pmOneJob hwf "j").2 1 (PM.get_job pmOneJob "j").2 hpair
  exact ⟨h.1 0 (by decide), h.2.1 { status := some JobStatus.completed }⟩

end AcademicReader

namespace AcademicReader

open AcademicReader.Progress

/-- Running totals of the tqdm counter: the value of self.n after each
update call, starting from n. -/
def partialSums (n : Int) : List Int → List Int
  | [] => []
  | k :: ks => (n + k) :: partialSums (n + k) ks

/-- Pushing to a queue appends to that queue. -/
theorem pushEvent_queues_self (g : ProgState) (id : String) (e : ProgressEvent) :
    (pushEvent g id e).queues id = g.queues id ++ [e] := by
  unfold pushEvent
  dsimp only
  rw [if_pos rfl]

/-- Pushing to a queue leaves every other queue unchanged. -/
theorem pushEvent_queues_ne (g : ProgState) (id : String) (e : ProgressEvent)
    (id2 : String) (h : id2 ≠ id) : (pushEvent g id e).queues id2 = g.queues id2 := by
  unfold pushEvent
  dsimp only
  rw [if_neg h]

/-- Running the update calls of a tracked bar appends exactly the running
totals to the captured job's queue and only advances the counter. -/
theorem runUpdatesT_queue : ∀ (ks : List Int) (g : ProgState) (st : TrackedState),
    st.tracked = true →
    (runUpdatesT g st ks).2 = { st with n := st.n + ks.sum } ∧
    ∀ id, (runUpdatesT g st ks).1.queues id =
      if id = st.jobId then
        g.queues id ++ (partialSums st.n ks).map
          (fun c => ({ stage := st.stage, current := c, total := st.total } : ProgressEvent))
      else g.queues id := by
  intro ks
  induction ks with
  | nil =>
    intro g st ht
    refine ⟨by simp [runUpdatesT], ?_⟩
    intro id
    simp [runUpdatesT, partialSums]
  | cons k ks ih =>
    intro g st ht
    have hstep : trackedUpdate g st k =
        (pushEvent g st.jobId { stage := st.stage, current := st.n + k, total := st.total },
          { st with n := st.n + k }) := by
      unfold trackedUpdate
      rw [if_pos ht]
    constructor
    · show (runUpdatesT (trackedUpdate g st k).1 (trackedUpdate g st k).2 ks).2 = _
      rw [hstep]
      have h2 := (ih (pushEvent g st.jobId
        { stage := st.stage, current := st.n + k, total := st.total })
        { st with n := st.n + k } ht).1
      rw [h2]
      show ({ st with n := st.n + k + ks.sum } : TrackedState) = _
      rw [List.sum_cons, ← Int.add_assoc]
    · intro id
      show (runUpdatesT (trackedUpdate g st k).1 (trackedUpdate g st k).2 ks).1.queues id = _
      rw [hstep]
      have h2 := (ih (pushEvent g st.jobId
        { stage := st.stage, current := st.n + k, total := st.total })
        { st with n := st.n + k } ht).2 id
      rw [h2]
      by_cases hid : id = st.jobId
      · rw [if_pos hid, if_pos hid]
        show (if id = st.jobId then _ else _) ++ _ = _
        rw [if_pos hid, partialSums]
        simp
      · rw [if_neg hid, if_neg hid]
        show (if id = st.jobId then _ else _) = _
        rw [if_neg hid]

/-- In shared-channel mode with an active job and a positive total, the
events of one stage are exactly the initial 0, the running totals of the
updates, and the closing total. -/
theorem stageEvents_tracked (j stage : String) (T : Int) (ks : List Int)
    (hj : j ≠ "") (hT : 0 < T) :
    stageEvents (some j) (some T) stage ks =
      ((0 :: partialSums 0 ks) ++ [T]).map
        (fun c => ({ stage := stage, current := c, total := T } : ProgressEvent)) := by
  unfold stageEvents runTrackedStage
  have hinit : trackedInit { queues := fun _ => [], activeJob := some j } (some T) stage =
      (pushEvent { queues := fun _ => [], activeJob := some j } j
          { stage := stage, current := 0, total := T },
        { tracked := true, jobId := j, n := 0, total := T, stage := stage }) := by
    unfold trackedInit
    dsimp only
    rw [if_pos ⟨hj, hT⟩]
    rfl
  dsimp only
  rw [show (some j).getD "" = j from rfl]
  rw [hinit]
  have hrun := runUpdatesT_queue ks
    (pushEvent { queues := fun _ => [], activeJob := some j } j
      { stage := stage, current := 0, total := T })
    { tracked := true, jobId := j, n := 0, total := T, stage := stage } rfl
  unfold trackedClose
  rw [hrun.1]
  dsimp only
  rw [if_pos rfl]
  rw [pushEvent_queues_self]
  rw [hrun.2 j]
  simp [pushEvent_queues_self, partialSums]

/-- The running totals never decrease when every increment is non-negative. -/
theorem partialSums_chain (ks : List Int) : ∀ n, (∀ k ∈ ks, 0 ≤ k) →
    List.Chain' (fun a b => a ≤ b) (n :: partialSums n ks) := by
  induction ks with
  | nil => intro n _; simp [partialSums]
  | cons k ks ih =>
    intro n hpos
    rw [partialSums]
    refine List.chain'_cons.mpr ⟨?_, ?_⟩
    · exact le_add_of_nonneg_right (hpos k (by simp))
    · exact ih (n + k) (fun x hx => hpos x (by simp [hx]))

/-- The last running total is the initial counter plus the sum of the
increments. -/
theorem partialSums_getLast (ks : List Int) : ∀ n,
    (n :: partialSums n ks).getLast? = some (n + ks.sum) := by
  induction ks with
  | nil => intro n; simp [partialSums]
  | cons k ks ih =>
    intro n
    rw [partialSums, List.getLast?_cons_cons, ih (n + k), List.sum_cons, ← Int.add_assoc]

end AcademicReader

namespace AcademicReader

open AcademicReader.Progress

/-- Claim C5 counterexample: TrackedTqdm emits self.n after each update with
no bound against the stage total, so a single update(5) on a stage of total
3 produces the queue events (0,3), (5,3), (3,3) — the closing (total,total)
event is smaller than the preceding current, so the pushed sequence is not
non-decreasing, contradicting the claim at this concrete input. -/
theorem C5_counterexample :
    stageEvents (some "j") (some 3) "s" [5] =
      [{ stage := "s", current := 0, total := 3 },
       { stage := "s", current := 5, total := 3 },
       { stage := "s", current := 3, total := 3 }] ∧
    ¬ List.Chain' (fun a b => a.current ≤ b.current)
        (stageEvents (some "j") (some 3) "s" [5]) := by
  have he : stageEvents (some "j") (some 3) "s" [5] =
      [{ stage := "s", current := 0, total := 3 },
       { stage := "s", current := 5, total := 3 },
       { stage := "s", current := 3, total := 3 }] := by decide
  refine ⟨he, ?_⟩
  intro hch
  rw [he] at hch
  have h2 := (List.chain'_cons.mp hch).2
  have h3 := (List.chain'_cons.mp h2).1
  exact absurd h3 (by decide)

/-- Claim C5 (amended): in shared-channel mode with an active job and a
positive stage total, provided every update increment is non-negative and
the increments sum to at most the total — which is how tqdm is driven by the
conversion — the events pushed for the stage hold the total fixed, start
with (0, total), end with the (total, total) close event, and have
non-decreasing current.  Without that proviso the claim fails (see the
counterexample). -/
theorem C5_stage_events_amended (j stage : String) (T : Int) (ks : List Int)
    (hj : j ≠ "") (hT : 0 < T) (hpos : ∀ k ∈ ks, 0 ≤ k) (hsum : ks.sum ≤ T) :
    (stageEvents (some j) (some T) stage ks).head? =
      some { stage := stage, current := 0, total := T } ∧
    (stageEvents (some j) (some T) stage ks).getLast? =
      some { stage := stage, current := T, total := T } ∧
    (∀ e ∈ stageEvents (some j) (some T) stage ks, e.total = T ∧ e.stage = stage) ∧
    List.Chain' (fun a b => a.current ≤ b.current)
      (stageEvents (some j) (some T) stage ks) := by
  rw [stageEvents_tracked j stage T ks hj hT]
  refine ⟨?_, ?_, ?_, ?_⟩
  · rw [List.cons_append, List.map_cons, List.head?_cons]
  · simp only [List.map_append, List.map_cons, List.map_nil]
    rw [List.getLast?_concat]
  · intro e he
    rw [List.mem_map] at he
    obtain ⟨c, _, hc⟩ := he
    rw [← hc]
    exact ⟨rfl, rfl⟩
  · rw [List.chain'_map]
    dsimp only
    rw [List.chain'_append]
    refine ⟨partialSums_chain ks 0 hpos, List.chain'_singleton T, ?_⟩
    intro x hx y hy
    rw [partialSums_getLast ks 0] at hx
    rw [List.head?_cons] at hy
    have hx0 : x = 0 + ks.sum := by
      have := Option.mem_def.mp hx
      exact Option.some.inj this.symm
    have hy0 : y = T := by
      have := Option.mem_def.mp hy
      exact Option.some.inj this.symm
    rw [hx0, hy0, Int.zero_add]
    exact hsum

/-- Claim C5 witness: the amended theorem applied to a concrete stage of
total 3 with increments 1 and 2. -/
theorem C5_witness :
    (stageEvents (some "job") (some 3) "s" [1, 2]).head? =
      some { stage := "s", current := 0, total := 3 } ∧
    (stageEvents (some "job") (some 3) "s" [1, 2]).getLast? =
      some { stage := "s", current := 3, total := 3 } := by
  have h := C5_stage_events_amended "job" "s" 3 [1, 2] (by decide) (by decide)
    (by decide) (by decide)
  exact ⟨h.1, h.2.1⟩

end AcademicReader

namespace AcademicReader.Progress

/-- The whole lifetime of one TrackedTqdm instance: construct it against the
module state, run its updates interleaved with arbitrary set_active_job
calls, close it. -/
def trackedLifetime (g : ProgState) (total : Option Int) (stage : String)
    (ops : List TrackedOp) : ProgState :=
  let p := trackedInit g total stage
  let q := trackedSteps p.1 p.2 ops
  trackedClose q.1 q.2

/-- The job id a TrackedTqdm instance captured at construction, if any. -/
def capturedJob (g : ProgState) (total : Option Int) (stage : String) : Option String :=
  if (trackedInit g total stage).2.tracked then
    some (trackedInit g total stage).2.jobId
  else
    none

end AcademicReader.Progress

namespace AcademicReader

open AcademicReader.Progress

/-- Running interleaved operations never changes the instance's captured
identity, and touches no queue other than the captured one. -/
theorem trackedSteps_frame : ∀ (ops : List TrackedOp) (g : ProgState) (st : TrackedState),
    ((trackedSteps g st ops).2.tracked = st.tracked ∧
      (trackedSteps g st ops).2.jobId = st.jobId) ∧
    ∀ id, st.tracked = false ∨ id ≠ st.jobId →
      (trackedSteps g st ops).1.queues id = g.queues id := by
  intro ops
  induction ops with
  | nil => exact fun g st => ⟨⟨rfl, rfl⟩, fun id _ => rfl⟩
  | cons op rest ih =>
    intro g st
    cases op with
    | update k =>
      have hstep : trackedSteps g st (TrackedOp.update k :: rest) =
          trackedSteps (trackedUpdate g st k).1 (trackedUpdate g st k).2 rest := rfl
      by_cases ht : st.tracked = true
      · have hu : trackedUpdate g st k =
            (pushEvent g st.jobId { stage := st.stage, current := st.n + k, total := st.total },
              { st with n := st.n + k }) := by
          unfold trackedUpdate
          rw [if_pos ht]
        rw [hstep, hu]
        have h := ih (pushEvent g st.jobId
          { stage := st.stage, current := st.n + k, total := st.total })
          { st with n := st.n + k }
        refine ⟨⟨h.1.1, h.1.2⟩, ?_⟩
        intro id hid
        rcases hid with hid | hid
        · rw [ht] at hid
          exact Bool.noConfusion hid
        · rw [h.2 id (Or.inr hid)]
          exact pushEvent_queues_ne g st.jobId _ id hid
      · have hu : trackedUpdate g st k = (g, { st with n := st.n + k }) := by
          unfold trackedUpdate
          rw [if_neg ht]
        rw [hstep, hu]
        have h := ih g { st with n := st.n + k }
        exact ⟨⟨h.1.1, h.1.2⟩, fun id hid => h.2 id hid⟩
    | setActive jj =>
      have hstep : trackedSteps g st (TrackedOp.setActive jj :: rest) =
          trackedSteps (set_active_job g jj) st rest := rfl
      rw [hstep]
      have h := ih (set_active_job g jj) st
      exact ⟨h.1, fun id hid => h.2 id hid⟩

/-- Claim C9: a TrackedTqdm instance captures the module-level active job
once at construction — the captured id is the active job of that moment,
only existing when the total is positive — and over its whole lifetime,
whatever update, close and set_active_job calls happen, it pushes events
only to the captured job's queue: every other queue is left untouched, and
when nothing was captured (no active job, or total not positive) no queue
changes at all. -/
theorem C9_tracked_tqdm_single_capture (g : ProgState) (total : Option Int)
    (stage : String) (ops : List TrackedOp) :
    (∀ j, capturedJob g total stage = some j →
      g.activeJob = some j ∧ 0 < total.getD 0) ∧
    ((g.activeJob = none ∨ total.getD 0 ≤ 0) → capturedJob g total stage = none) ∧
    (capturedJob g total stage = none →
      ∀ id, (trackedLifetime g total stage ops).queues id = g.queues id) ∧
    (∀ id, capturedJob g total stage ≠ some id →
      (trackedLifetime g total stage ops).queues id = g.queues id) := by
  cases ha : g.activeJob with
  | none =>
    have hinit : trackedInit g total stage =
        (g, { tracked := false, jobId := "", n := 0, total := total.getD 0, stage := stage }) := by
      unfold trackedInit
      rw [ha]
    have hcap : capturedJob g total stage = none := by
      unfold capturedJob
      rw [hinit]
      rfl
    have hframe : ∀ id, (trackedLifetime g total stage ops).queues id = g.queues id := by
      intro id
      unfold trackedLifetime
      rw [hinit]
      dsimp only
      have h := trackedSteps_frame ops g
        { tracked := false, jobId := "", n := 0, total := total.getD 0, stage := stage }
      unfold trackedClose
      rw [if_neg (by rw [h.1.1]; exact Bool.false_ne_true)]
      exact h.2 id (Or.inl rfl)
    refine ⟨?_, fun _ => hcap, fun _ => hframe, fun id _ => hframe id⟩
    intro j hj
    rw [hcap] at hj
    exact Option.noConfusion hj
  | some j0 =>
    by_cases hc : j0 ≠ "" ∧ 0 < total.getD 0
    · have hinit : trackedInit g total stage =
          (pushEvent g j0 { stage := stage, current := 0, total := total.getD 0 },
            { tracked := true, jobId := j0, n := 0, total := total.getD 0, stage := stage }) := by
        unfold trackedInit
        rw [ha]
        dsimp only
        rw [if_pos hc]
      have hcap : capturedJob g total stage = some j0 := by
        unfold capturedJob
        rw [hinit]
        rfl
      refine ⟨?_, ?_, ?_, ?_⟩
      · intro j hj
        rw [hcap] at hj
        exact ⟨hj, hc.2⟩
      · rintro (h | h)
        · exact Option.noConfusion h
        · exact absurd hc.2 (by omega)
      · intro h
        rw [hcap] at h
        exact Option.noConfusion h
      · intro id hid
        rw [hcap] at hid
        have hne : id ≠ j0 := fun he => hid (by rw [he])
        unfold trackedLifetime
        rw [hinit]
        dsimp only
        have h := trackedSteps_frame ops
          (pushEvent g j0 { stage := stage, current := 0, total := total.getD 0 })
          { tracked := true, jobId := j0, n := 0, total := total.getD 0, stage := stage }
        unfold trackedClose
        rw [if_pos (by rw [h.1.1])]
        rw [pushEvent_queues_ne _ _ _ id (by rw [h.1.2]; exact hne)]
        rw [h.2 id (Or.inr hne)]
        exact pushEvent_queues_ne g j0 _ id hne
    · have hinit : trackedInit g total stage =
          (g, { tracked := false, jobId := "", n := 0, total := total.getD 0, stage := stage }) := by
        unfold trackedInit
        rw [ha]
        dsimp only
        rw [if_neg hc]
      have hcap : capturedJob g total stage = none := by
        unfold capturedJob
        rw [hinit]
        rfl
      have hframe : ∀ id, (trackedLifetime g total stage ops).queues id = g.queues id := by
        intro id
        unfold trackedLifetime
        rw [hinit]
        dsimp only
        have h := trackedSteps_frame ops g
          { tracked := false, jobId := "", n := 0, total := total.getD 0, stage := stage }
        unfold trackedClose
        rw [if_neg (by rw [h.1.1]; exact Bool.false_ne_true)]
        exact h.2 id (Or.inl rfl)
      refine ⟨?_, fun _ => hcap, fun _ => hframe, fun id _ => hframe id⟩
      intro j hj
      rw [hcap] at hj
      exact Option.noConfusion hj

/-- Claim C9 witness: a bar constructed while job "a" is active, with a
set_active_job "b" interleaved among its updates, never touches the queue of
"b"; and a bar constructed with total 0 touches no queue at all. -/
theorem C9_witness :
    (trackedLifetime { queues := fun _ => [], activeJob := some "a" } (some 4) "s"
        [TrackedOp.update 1, TrackedOp.setActive (some "b"), TrackedOp.update 1]).queues "b" = [] ∧
    (trackedLifetime { queues := fun _ => [], activeJob := some "a" } (some 0) "s"
        [TrackedOp.update 1]).queues "a" = [] := by
  have h1 := (C9_tracked_tqdm_single_capture
    { queues := fun _ => [], activeJob := some "a" } (some 4) "s"
    [TrackedOp.update 1, TrackedOp.setActive (some "b"), TrackedOp.update 1]).2.2.2 "b"
    (by decide)
  have h2 := (C9_tracked_tqdm_single_capture
    { queues := fun _ => [], activeJob := some "a" } (some 0) "s"
    [TrackedOp.update 1]).2.2.1 (by decide) "a"
  exact ⟨h1, h2⟩

end AcademicReader

namespace AcademicReader.Progress

/-- The relation the throttle leaves between consecutive update-path sends:
either at least 500 ms passed, or the counter had reached the total (the
self.n >= self.total escape of the guard). -/
def throttleOk (a b : SendRec) : Prop :=
  (1 : ℚ) / 2 ≤ b.time - a.time ∨ b.total ≤ b.current

instance (a b : SendRec) : Decidable (throttleOk a b) :=
  inferInstanceAs (Decidable ((1 : ℚ) / 2 ≤ b.time - a.time ∨ b.total ≤ b.current))

end AcademicReader.Progress

namespace AcademicReader

open AcademicReader.Progress

/-- An untracked WebhookTqdm bar never sends from update. -/
theorem runWebhookUpdates_untracked : ∀ (us : List (Int × ℚ)) (st : WebhookState),
    st.tracked = false →
    (runWebhookUpdates st us).2 = [] ∧ (runWebhookUpdates st us).1.tracked = false := by
  intro us
  induction us with
  | nil => exact fun st ht => ⟨rfl, ht⟩
  | cons u rest ih =>
    intro st ht
    obtain ⟨k, now⟩ := u
    have hu : webhookUpdate st k now = ({ st with n := st.n + k }, []) := by
      unfold webhookUpdate
      rw [if_neg (by rw [ht]; exact Bool.false_ne_true)]
    have hrw : runWebhookUpdates st ((k, now) :: rest) =
        ((runWebhookUpdates (webhookUpdate st k now).1 rest).1,
          (webhookUpdate st k now).2 ++ (runWebhookUpdates (webhookUpdate st k now).1 rest).2) := rfl
    rw [hrw, hu]
    have h := ih { st with n := st.n + k } ht
    exact ⟨by rw [List.nil_append]; exact h.1, h.2⟩

/-- Along the update calls of a tracked WebhookTqdm bar, every send comes
from the update path with the stage's fixed total, consecutive sends satisfy
the throttle relation, and the first send satisfies it relative to the
_last_sent value at entry. -/
theorem runWebhookUpdates_sends : ∀ (us : List (Int × ℚ)) (st : WebhookState),
    st.tracked = true →
    ((runWebhookUpdates st us).1.tracked = true ∧
      (runWebhookUpdates st us).1.total = st.total ∧
      (runWebhookUpdates st us).1.stage = st.stage) ∧
    (∀ e ∈ (runWebhookUpdates st us).2,
      e.fromUpdate = true ∧ e.total = st.total ∧ e.stage = st.stage) ∧
    List.Chain' throttleOk (runWebhookUpdates st us).2 ∧
    (∀ e, (runWebhookUpdates st us).2.head? = some e →
      (1 : ℚ) / 2 ≤ e.time - st.lastSent ∨ e.total ≤ e.current) := by
  intro us
  induction us with
  | nil =>
    intro st ht
    refine ⟨⟨ht, rfl, rfl⟩, ?_, List.chain'_nil, ?_⟩
    · intro e he
      exact absurd he (List.not_mem_nil e)
    · intro e he
      exact Option.noConfusion he
  | cons u rest ih =>
    intro st ht
    obtain ⟨k, now⟩ := u
    have hrw : runWebhookUpdates st ((k, now) :: rest) =
        ((runWebhookUpdates (webhookUpdate st k now).1 rest).1,
          (webhookUpdate st k now).2 ++ (runWebhookUpdates (webhookUpdate st k now).1 rest).2) := rfl
    rw [hrw]
    by_cases hg : (1 : ℚ) / 2 ≤ now - st.lastSent ∨ st.total ≤ st.n + k
    · have hu : webhookUpdate st k now =
          ({ st with n := st.n + k, lastSent := now },
            [{ stage := st.stage, current := st.n + k, total := st.total,
               time := now, fromUpdate := true }]) := by
        unfold webhookUpdate
        rw [if_pos ht, if_pos hg]
      rw [hu]
      dsimp only
      have h := ih { st with n := st.n + k, lastSent := now } ht
      refine ⟨⟨h.1.1, h.1.2.1, h.1.2.2⟩, ?_, ?_, ?_⟩
      · intro e he
        rw [List.singleton_append, List.mem_cons] at he
        rcases he with he | he
        · rw [he]
          exact ⟨rfl, rfl, rfl⟩
        · exact h.2.1 e he
      · rw [List.singleton_append]
        refine List.chain'_cons'.mpr ⟨?_, h.2.2.1⟩
        intro b hb
        have hhead := h.2.2.2 b (Option.mem_def.mp hb)
        exact hhead
      · intro e he
        rw [List.singleton_append, List.head?_cons] at he
        rw [← Option.some.inj he]
        exact hg
    · have hu : webhookUpdate st k now = ({ st with n := st.n + k }, []) := by
        unfold webhookUpdate
        rw [if_pos ht, if_neg hg]
      rw [hu]
      dsimp only
      have h := ih { st with n := st.n + k } ht
      rw [List.nil_append]
      exact ⟨⟨h.1.1, h.1.2.1, h.1.2.2⟩, h.2.1, h.2.2.1, h.2.2.2⟩

end AcademicReader

namespace AcademicReader

open AcademicReader.Progress

/-- Claim C6 (amended): in webhook mode the update-path sends of one stage
are throttled — consecutive ones are at least 500 ms apart — except that an
update whose counter has reached the stage total also sends immediately
(the self.n >= self.total escape in the guard); the first (0, total) send at
construction and the final (total, total) send at close are unconditional. -/
theorem C6_webhook_throttle_amended (hasCb : Bool) (total : Option Int) (stage : String)
    (tInit : ℚ) (updates : List (Int × ℚ)) (tClose : ℚ) :
    List.Chain' throttleOk
      ((runWebhookStage hasCb total stage tInit updates tClose).filter
        (fun e => e.fromUpdate)) ∧
    (hasCb = true → 0 < total.getD 0 →
      (runWebhookStage hasCb total stage tInit updates tClose).head? =
        some { stage := stage, current := 0, total := total.getD 0,
               time := tInit, fromUpdate := false } ∧
      (runWebhookStage hasCb total stage tInit updates tClose).getLast? =
        some { stage := stage, current := total.getD 0, total := total.getD 0,
               time := tClose, fromUpdate := false }) := by
  have hrw : runWebhookStage hasCb total stage tInit updates tClose =
      (webhookInit hasCb total stage tInit).2 ++
        (runWebhookUpdates (webhookInit hasCb total stage tInit).1 updates).2 ++
        webhookClose (runWebhookUpdates (webhookInit hasCb total stage tInit).1 updates).1
          tClose := rfl
  by_cases hc : hasCb = true ∧ 0 < total.getD 0
  · have hinit : webhookInit hasCb total stage tInit =
        ({ tracked := true, n := 0, total := total.getD 0, lastSent := 0, stage := stage },
          [{ stage := stage, current := 0, total := total.getD 0,
             time := tInit, fromUpdate := false }]) := by
      unfold webhookInit
      rw [if_pos hc]
    rw [hrw, hinit]
    dsimp only
    have h := runWebhookUpdates_sends updates
      { tracked := true, n := 0, total := total.getD 0, lastSent := 0, stage := stage } rfl
    have hclose : webhookClose
        (runWebhookUpdates
          { tracked := true, n := 0, total := total.getD 0, lastSent := 0, stage := stage }
          updates).1 tClose =
        [{ stage := stage, current := total.getD 0, total := total.getD 0,
           time := tClose, fromUpdate := false }] := by
      unfold webhookClose
      rw [if_pos h.1.1, h.1.2.1, h.1.2.2]
    rw [hclose]
    constructor
    · rw [List.filter_append, List.filter_append]
      have hf2 : List.filter (fun e => e.fromUpdate)
          (runWebhookUpdates
            { tracked := true, n := 0, total := total.getD 0, lastSent := 0, stage := stage }
            updates).2 =
          (runWebhookUpdates
            { tracked := true, n := 0, total := total.getD 0, lastSent := 0, stage := stage }
            updates).2 :=
        List.filter_eq_self.mpr (fun e he => (h.2.1 e he).1)
      rw [hf2]
      show List.Chain' throttleOk ([] ++ _ ++ []) 
      rw [List.nil_append, List.append_nil]
      exact h.2.2.1
    · intro _ _
      constructor
      · rw [List.singleton_append, List.cons_append, List.head?_cons]
      · rw [List.getLast?_concat]
  · have hinit : webhookInit hasCb total stage tInit =
        ({ tracked := false, n := 0, total := total.getD 0, lastSent := 0, stage := stage },
          []) := by
      unfold webhookInit
      rw [if_neg hc]
    rw [hrw, hinit]
    dsimp only
    have h := runWebhookUpdates_untracked updates
      { tracked := false, n := 0, total := total.getD 0, lastSent := 0, stage := stage } rfl
    have hclose : webhookClose
        (runWebhookUpdates
          { tracked := false, n := 0, total := total.getD 0, lastSent := 0, stage := stage }
          updates).1 tClose = [] := by
      unfold webhookClose
      rw [if_neg (by rw [h.2]; exact Bool.false_ne_true)]
    rw [h.1, hclose]
    constructor
    · show List.Chain' throttleOk (([] ++ [] ++ []).filter (fun e => e.fromUpdate))
      exact List.chain'_nil
    · intro h1 h2
      exact absurd ⟨h1, h2⟩ hc

/-- Claim C6 counterexample: with total 5, an update(6) at t=1000 sends
(6,5), and a further update(1) at t=1000.2 — only 200 ms later — sends (7,5)
because the guard's self.n >= self.total escape bypasses the 500 ms
throttle; neither send is the stage-start (0,total) event nor the
stage-close (total,total) event, so more than one non-exempt update is sent
inside a 500 ms window, contradicting the claim at this concrete input. -/
theorem C6_counterexample :
    (runWebhookStage true (some 5) "s" 0 [(6, 1000), (1, 1000 + 1/5)] 2000).filter
        (fun e => e.fromUpdate) =
      [{ stage := "s", current := 6, total := 5, time := 1000, fromUpdate := true },
       { stage := "s", current := 7, total := 5, time := 1000 + 1/5, fromUpdate := true }] ∧
    ((1000 + 1/5 : ℚ) - 1000 < 1/2) ∧
    (∀ e ∈ (runWebhookStage true (some 5) "s" 0 [(6, 1000), (1, 1000 + 1/5)] 2000).filter
        (fun e => e.fromUpdate), e.current ≠ 0 ∧ e.current ≠ e.total) ∧
    ¬ List.Chain' (fun a b => (1 : ℚ) / 2 ≤ b.time - a.time)
        ((runWebhookStage true (some 5) "s" 0 [(6, 1000), (1, 1000 + 1/5)] 2000).filter
          (fun e => e.fromUpdate)) := by
  have he : (runWebhookStage true (some 5) "s" 0 [(6, 1000), (1, 1000 + 1/5)] 2000).filter
      (fun e => e.fromUpdate) =
      [{ stage := "s", current := 6, total := 5, time := 1000, fromUpdate := true },
       { stage := "s", current := 7, total := 5, time := 1000 + 1/5, fromUpdate := true }] := by
    norm_num [runWebhookStage, webhookInit, runWebhookUpdates, webhookUpdate, webhookClose,
      List.filter]
  refine ⟨he, by norm_num, ?_, ?_⟩
  · rw [he]
    intro e he2
    rw [List.mem_cons, List.mem_singleton] at he2
    rcases he2 with rfl | rfl
    · exact ⟨by decide, by decide⟩
    · exact ⟨by decide, by decide⟩
  · intro hch
    rw [he] at hch
    have hstep := (List.chain'_cons.mp hch).1
    norm_num at hstep

/-- Claim C6 witness: the amended theorem applied to a concrete tracked
stage gives the guaranteed first and last sends. -/
theorem C6_witness :
    (runWebhookStage true (some 2) "s" 0 [(1, 10)] 20).head? =
      some { stage := "s", current := 0, total := 2, time := 0, fromUpdate := false } ∧
    (runWebhookStage true (some 2) "s" 0 [(1, 10)] 20).getLast? =
      some { stage := "s", current := 2, total := 2, time := 20, fromUpdate := false } :=
  (C6_webhook_throttle_amended true (some 2) "s" 0 [(1, 10)] 20).2 rfl (by decide)

end AcademicReader
